import Mathlib

/-!
# Verification of the peer-evaluation score tool (`src/App.tsx`)

A shallow embedding of the pure logic of the single-page evaluation app:
the evaluation matrix (a JS object mapping evaluator name to an object
mapping subject name to a numeric score), the score-update handlers, the
leaderboard averaging (`averageScores`), the label-layout heuristic
(`graphDisplayItems`), JSON import/export, and the localStorage
startup / persistence paths.

JS objects are modelled as insertion-ordered association lists with the
JS property-update semantics (`{...obj, [k]: v}` replaces the value in
place when the key exists, appends otherwise); `Object.entries` is the
list itself, `Object.values` is the list of second components.  Scores
are modelled as `Int` (the UI only produces integers in `[0,100]`, but
imported files can carry arbitrary integers).  `Array.prototype.sort`
(stable in JS) is modelled by `List.mergeSort`, and `Math.round` by
`⌊x + 1/2⌋` on `ℚ`, which agrees with JS `Math.round` on all rationals.
-/

namespace ScoreApp

/-- JS object lookup `obj[k]`: the value at key `k`, `none` when absent.
For the association-list model this is the first matching entry. -/
def recordGet {α : Type} : List (String × α) → String → Option α
  | [], _ => none
  | e :: rest, k => if e.1 = k then some e.2 else recordGet rest k

/-- JS object update `{...rec, [k]: v}` / `rec[k] = v`: replaces the value
in place when the key is present (JS object keys are unique, so replacing
the first occurrence is the object semantics), appends otherwise. -/
def recordSet {α : Type} : List (String × α) → String → α → List (String × α)
  | [], k, v => [(k, v)]
  | e :: rest, k, v =>
    if e.1 = k then (k, v) :: rest else e :: recordSet rest k v

/-- One evaluator's row: subject name ↦ score (`Record<string, number>`). -/
abbrev Evals := List (String × Int)

/-- The evaluation matrix (`Record<string, Record<string, number>>`). -/
abbrev Matrix := List (String × Evals)

/-- `participantsNames` from `App.tsx`: the seventeen built-in names. -/
def participantsNames : List String :=
  ["지운", "대성", "준호", "하운", "병주", "형진", "태욱", "승재", "현우",
   "태현", "상혁", "승희", "가람", "효민", "웅", "준이형", "한을"]

/-- `jiunInitialScores` from `App.tsx`: the hard-coded preset row. -/
def jiunInitialScores : Evals :=
  [("대성", 100), ("준호", 95), ("하운", 90), ("병주", 80), ("형진", 70),
   ("태욱", 65), ("승재", 40), ("현우", 30), ("태현", 0), ("상혁", 0),
   ("승희", 0), ("가람", 0), ("효민", 0), ("웅", 0), ("준이형", 0), ("한을", 0)]

/-- `getInitialData` from `App.tsx`: for every scorer, a row over every
other participant (`if (scorer === subject) return;` skips the self
entry), with `지운`'s presets where defined and `0` everywhere else. -/
def getInitialData : Matrix :=
  participantsNames.map (fun scorer =>
    (scorer,
      (participantsNames.filter (fun subject => subject ≠ scorer)).map
        (fun subject =>
          (subject,
            if scorer = "지운" ∧ (recordGet jiunInitialScores subject).isSome then
              (recordGet jiunInitialScores subject).getD 0
            else 0))))

/-- The React state relevant to the claims: the evaluation matrix, the
currently selected evaluator, and the free-text axis label. -/
structure AppState where
  allEvaluations : Matrix
  currentScorer : String
  axisLabel : String
  deriving Repr, DecidableEq

/-- `updateScore` from `App.tsx`:
`{...prev, [currentScorer]: {...prev[currentScorer], [subjectName]: newScore}}`
(spreading an absent row gives the empty object). -/
def updateScore (s : AppState) (subjectName : String) (newScore : Int) :
    AppState :=
  { s with
    allEvaluations :=
      recordSet s.allEvaluations s.currentScorer
        (recordSet ((recordGet s.allEvaluations s.currentScorer).getD [])
          subjectName newScore) }

/-- The number-input `onChange` handler: `parseInt` gives `none` on NaN,
otherwise the score is clamped by `Math.min(100, Math.max(0, v))`. -/
def numberInput (s : AppState) (subjectName : String) (parsed : Option Int) :
    AppState :=
  match parsed with
  | some v => updateScore s subjectName (min 100 (max 0 v))
  | none => s

/-- The number-input `onBlur` handler: a NaN/empty field resets to 0. -/
def numberBlur (s : AppState) (subjectName : String) (parsed : Option Int) :
    AppState :=
  match parsed with
  | some _ => s
  | none => updateScore s subjectName 0

/-- The slider `onChange` handler: `updateScore(name, parseInt(value))`
where the range input yields an integer in `[0,100]`. -/
def sliderInput (s : AppState) (subjectName : String) (v : Int) : AppState :=
  updateScore s subjectName v

/-- The payload of an exported file (`exportToJson` writes
`{axisLabel, allEvaluations, exportedAt}`). -/
structure ExportFile where
  axisLabel : String
  allEvaluations : Matrix
  exportedAt : String
  deriving Repr, DecidableEq

/-- `exportToJson` from `App.tsx`, restricted to the serialized payload
(the DOM download plumbing is not modelled). -/
def exportToJson (s : AppState) (now : String) : ExportFile :=
  { axisLabel := s.axisLabel, allEvaluations := s.allEvaluations,
    exportedAt := now }

/-- A successfully parsed import file, restricted to payloads whose
`allEvaluations` field is a record of records of integers.  `none` models
the field being absent (or falsy, which for the always-truthy object
values of this shape means absent); for `axisLabel` the string value is
kept verbatim and the `if (json.axisLabel)` truthiness test is applied by
the reader, so an empty string is representable. -/
structure ImportFile where
  allEvaluations : Option Matrix
  axisLabel : Option String
  deriving Repr, DecidableEq

/-- Reading back an exported file parses to exactly its two data fields
(the `exportedAt` field is never read). -/
def toImportFile (e : ExportFile) : ImportFile :=
  { allEvaluations := some e.allEvaluations, axisLabel := some e.axisLabel }

/-- A toast notification (`showToast`). -/
inductive ToastType where
  | success
  | error
  deriving Repr, DecidableEq

structure Toast where
  message : String
  ttype : ToastType
  deriving Repr, DecidableEq

/-- The guard inside `importFromJson`:
`Object.keys(allEvaluations).some(s => Object.values(allEvaluations[s] || {}).some(v => v > 0))`. -/
def hasAnyData (m : Matrix) : Bool :=
  (m.map Prod.fst).any (fun k =>
    ((recordGet m k).getD []).any (fun e => 0 < e.2))

/-- `importFromJson` from `App.tsx`, as a transition on the state given
the outcome of `JSON.parse` on the selected file (`Except.error msg`
models a parse exception) and the user's answer to the overwrite
`confirm` dialog.  Returns the new state and the toast shown, if any. -/
def importFromJson (s : AppState) (parsed : Except String ImportFile)
    (confirmed : Bool) : AppState × Option Toast :=
  match parsed with
  | .error msg => (s, some ⟨"파일 불러오기 실패: " ++ msg, .error⟩)
  | .ok f =>
    match f.allEvaluations with
    | none =>
      -- `throw new Error('올바르지 않은 데이터 형식입니다.')`, caught below
      (s, some ⟨"파일 불러오기 실패: " ++ "올바르지 않은 데이터 형식입니다.", .error⟩)
    | some m =>
      if hasAnyData s.allEvaluations ∧ confirmed = false then
        (s, none)
      else
        let s1 := { s with allEvaluations := m }
        let s2 :=
          match f.axisLabel with
          | some l => if l ≠ "" then { s1 with axisLabel := l } else s1
          | none => s1
        (s2, some ⟨"파일을 성공적으로 불러왔습니다.", .success⟩)

/-- The persisted snapshot: the persistence `useEffect` writes
`JSON.stringify({ allEvaluations, axisLabel })` for the current state. -/
structure Snapshot where
  allEvaluations : Matrix
  axisLabel : String
  deriving Repr, DecidableEq

def persistSnapshot (s : AppState) : Snapshot :=
  { allEvaluations := s.allEvaluations, axisLabel := s.axisLabel }

/-- What reading `localStorage` at startup can yield: no stored item,
a stored item on which `JSON.parse` throws, or a parsed payload. -/
inductive LoadResult where
  | absent
  | malformed (msg : String)
  | parsed (f : ImportFile)
  deriving Repr, DecidableEq

/-- The `allEvaluations` `useState` initializer: return the stored
matrix when present, otherwise (absent item, parse exception, or missing
field) fall back to `getInitialData()`. -/
def initialEvaluations (r : LoadResult) : Matrix :=
  match r with
  | .parsed f =>
    match f.allEvaluations with
    | some m => m
    | none => getInitialData
  | _ => getInitialData

/-- The `axisLabel` `useState` initializer: return the stored label when
truthy, otherwise fall back to `'식 점수'`. -/
def initialAxisLabel (r : LoadResult) : String :=
  match r with
  | .parsed f =>
    match f.axisLabel with
    | some l => if l ≠ "" then l else "식 점수"
    | none => "식 점수"
  | _ => "식 점수"

/-- Every user-visible operation of the app that touches the modelled
state or shows a toast.  `persist` and `saveImage` carry whether the
external effect (the `localStorage` write, the `toPng` capture)
succeeded; `importJson` carries the parse outcome and the `confirm`
answer; the two numeric events carry the `parseInt` outcome. -/
inductive Event where
  | selectScorer (name : String)
  | setSlider (subject : String) (v : Int)
  | setNumber (subject : String) (parsed : Option Int)
  | blurNumber (subject : String) (parsed : Option Int)
  | editLabel (l : String)
  | exportJson (now : String)
  | importJson (parsed : Except String ImportFile) (confirmed : Bool)
  | persist (ok : Bool)
  | saveImage (ok : Bool)

/-- One step of the UI: the next state and the toast shown, if any,
assembled from the corresponding handlers in `App.tsx`. -/
def step (s : AppState) (e : Event) : AppState × Option Toast :=
  match e with
  | .selectScorer name => ({ s with currentScorer := name }, none)
  | .setSlider subject v => (sliderInput s subject v, none)
  | .setNumber subject parsed => (numberInput s subject parsed, none)
  | .blurNumber subject parsed => (numberBlur s subject parsed, none)
  | .editLabel l => ({ s with axisLabel := l }, none)
  | .exportJson _ => (s, some ⟨"JSON 파일이 다운로드되었습니다.", .success⟩)
  | .importJson parsed confirmed => importFromJson s parsed confirmed
  | .persist ok =>
    if ok then (s, none) else (s, some ⟨"저장 공간이 부족합니다.", .error⟩)
  | .saveImage ok =>
    if ok then (s, some ⟨"이미지가 저장되었습니다.", .success⟩)
    else (s, some ⟨"이미지 저장에 실패했습니다.", .error⟩)

/-- Whether an import event failed (parse exception or missing/falsy
`allEvaluations` field). -/
def importFails (parsed : Except String ImportFile) : Bool :=
  match parsed with
  | .error _ => true
  | .ok f => f.allEvaluations.isNone

/-- The events the spec names as failure modes: a failed import and a
failed `localStorage` write. -/
def isSpecFailure (e : Event) : Bool :=
  match e with
  | .importJson parsed _ => importFails parsed
  | .persist ok => !ok
  | _ => false

/-- `Object.values(evals).reduce((a, b) => a + b, 0)`. -/
def sumValues (evals : Evals) : Int :=
  (evals.map Prod.snd).sum

/-- `totals[name] = (totals[name] || 0) + score` (for the non-negative
counts the `|| 0` and the `getD 0` agree; for totals a stored 0 also
reads back as 0 either way). -/
def bumpTotal (totals : Evals) (e : String × Int) : Evals :=
  recordSet totals e.1 ((recordGet totals e.1).getD 0 + e.2)

/-- `counts[name] = (counts[name] || 0) + 1`. -/
def bumpCount (counts : List (String × Nat)) (name : String) :
    List (String × Nat) :=
  recordSet counts name ((recordGet counts name).getD 0 + 1)

/-- The accumulation loop of `averageScores`: for every evaluator row,
add each given score into `totals`, and count the row toward each named
subject only when the row's own total is positive
(`hasEvaluated = sumGiven > 0`). -/
def totalsCounts (m : Matrix) : Evals × List (String × Nat) :=
  m.foldl
    (fun tc entry =>
      let evals := entry.2
      let hasEvaluatedRow := 0 < sumValues evals
      evals.foldl
        (fun tc e =>
          (bumpTotal tc.1 e,
           if hasEvaluatedRow then bumpCount tc.2 e.1 else tc.2))
        tc)
    ([], [])

/-- JS `Math.round`: round half toward positive infinity. -/
def jsRound (x : ℚ) : Int :=
  ⌊x + 1 / 2⌋

/-- `counts[name] || 1`: an absent or zero count falls back to 1. -/
def orOne (o : Option Nat) : Nat :=
  match o with
  | some n => if n = 0 then 1 else n
  | none => 1

/-- `averageScores` from `App.tsx`: map each accumulated total to
`Math.round(total / (counts[name] || 1))` and sort descending by score
(`(a, b) => b.score - a.score`, stable). -/
def averageScores (m : Matrix) : List (String × Int) :=
  ((totalsCounts m).1.map (fun p =>
      (p.1, jsRound ((p.2 : ℚ) /
        (orOne (recordGet (totalsCounts m).2 p.1) : ℚ))))).mergeSort
    (fun a b => decide (b.2 ≤ a.2))

/-- The list of scores given to `name` by evaluators whose own submission
is non-empty (row total positive), in matrix order; the sample whose mean
the leaderboard is claimed to display. -/
def scoresFor (m : Matrix) (name : String) : List Int :=
  (((m.filter (fun r => decide (0 < sumValues r.2))).flatMap Prod.snd).filter
    (fun e => decide (e.1 = name))).map Prod.snd

/-- Every score stored anywhere in the matrix is non-negative (true for
every state the UI controls produce; imported files may break it). -/
def nonnegMatrix (m : Matrix) : Prop :=
  ∀ r ∈ m, ∀ e ∈ r.2, 0 ≤ e.2

/-- Every score stored anywhere in the matrix lies in `[0, 100]`. -/
def matrixInRange (m : Matrix) : Prop :=
  ∀ r ∈ m, ∀ e ∈ r.2, 0 ≤ e.2 ∧ e.2 ≤ 100

/-- The persisted-snapshot score-range invariant of the spec, as a
decidable check. -/
def snapshotInRange (sn : Snapshot) : Bool :=
  sn.allEvaluations.all (fun r => r.2.all (fun e => 0 ≤ e.2 && e.2 ≤ 100))

/-- One labelled point of the scatter graph (`currentScores` entry); the
derived `hsl(...)` colour string is presentation-only and not modelled. -/
structure Person where
  name : String
  score : Int
  deriving Repr, DecidableEq, Inhabited

/-- The scored subjects of the currently selected evaluator. -/
def currentScores (s : AppState) : List Person :=
  ((recordGet s.allEvaluations s.currentScorer).getD []).map
    (fun e => ⟨e.1, e.2⟩)

/-- The sort comparator `(a, b) => a.score - b.score || a.name.localeCompare(b.name)`
as the stable-sort ordering it induces: ascending score, ties by name
(`localeCompare` modelled by the order on Lean strings). -/
def personLE (a b : Person) : Bool :=
  decide (a.score < b.score) ||
    (decide (a.score = b.score) && decide (a.name ≤ b.name))

/-- The grouping loop of `graphDisplayItems`: walk the sorted list,
extending the current group while the next score is within
`SCORE_BAND = 12` of the previous one, and emitting the group otherwise. -/
def groupLoop : List (List Person) → List Person → List Person →
    List (List Person)
  | groups, currentGroup, [] =>
    if currentGroup.isEmpty then groups else groups ++ [currentGroup]
  | groups, currentGroup, person :: rest =>
    match currentGroup.getLast? with
    | some last =>
      if |person.score - last.score| ≤ 12 then
        groupLoop groups (currentGroup ++ [person]) rest
      else
        groupLoop (groups ++ [currentGroup]) [person] rest
    | none => groupLoop groups [person] rest

/-- The grouping stage applied to the sorted scores. -/
def graphGroups (ps : List Person) : List (List Person) :=
  groupLoop [] [] (ps.mergeSort personLE)

/-- A rendered item of the label layout: a lone label (possibly given a
vertical stagger offset later) or a vertical cluster of labels. -/
inductive GItem where
  | single (person : Person) (centerX : ℚ) (yOffset : Option Int)
  | cluster (centerX : ℚ) (members : List Person)
  deriving Repr, DecidableEq

def GItem.centerX : GItem → ℚ
  | .single _ x _ => x
  | .cluster x _ => x

def GItem.members : GItem → List Person
  | .single p _ _ => [p]
  | .cluster _ ms => ms

def GItem.isCluster : GItem → Bool
  | .single _ _ _ => false
  | .cluster _ _ => true

/-- `members.reduce((s, p) => s + p.score, 0) / members.length`. -/
def meanScore (members : List Person) : ℚ :=
  (members.map (fun p => (p.score : ℚ))).sum / members.length

/-- `Math.min(97, Math.max(3, centerScore))`. -/
def clampX (x : ℚ) : ℚ :=
  min 97 (max 3 x)

/-- The item-building stage: a one-member group becomes a `single` at the
clamped mean (its only member's score); a larger group becomes a
`cluster` at the clamped mean of its members' scores. -/
def itemsOfGroups (groups : List (List Person)) : List GItem :=
  groups.map (fun members =>
    let centerX := clampX (meanScore members)
    if members.length = 1 then GItem.single members.headI centerX none
    else GItem.cluster centerX members)

/-- The per-item body of the stagger pass: a single within
`STAGGER_THRESHOLD = 18` of at least one other single gets an alternating
vertical offset of `±26` determined by its rank (sorted by x, first index
with its name) among the nearby singles; clusters pass through. -/
def staggerOne (singleXs : List (ℚ × String)) (it : GItem) : GItem :=
  match it with
  | .single p x y =>
    let nearby := (singleXs.filter (fun t => decide (|t.1 - x| < 18))).mergeSort
      (fun a b => decide (a.1 ≤ b.1))
    if nearby.length < 2 then .single p x y
    else
      match nearby.findIdx? (fun n => decide (n.2 = p.name)) with
      | some myPos => .single p x (some (if myPos % 2 = 0 then 26 else -26))
      | none => .single p x y
  | it => it

/-- The stagger pass over all items (`singleIndices` collects the single
items' positions and names in item order). -/
def staggerSingles (items : List GItem) : List GItem :=
  let singleXs := items.filterMap (fun it =>
    match it with
    | .single p x _ => some (x, p.name)
    | .cluster _ _ => none)
  items.map (staggerOne singleXs)

/-- `graphDisplayItems` from `App.tsx`: sort, group, build items, stagger
singles, and return the items sorted by ascending `centerX`. -/
def graphDisplayItems (ps : List Person) : List GItem :=
  ((staggerSingles (itemsOfGroups (groupLoop [] [] (ps.mergeSort personLE)))).mergeSort
    (fun a b => decide (a.centerX ≤ b.centerX)))

/-- Two neighbouring members of a group are within the 12-point band. -/
def withinBand (p q : Person) : Prop :=
  |q.score - p.score| ≤ 12

/-- Maximality of the runs: between one group's last member and the next
group's first member there is a gap of more than 12 points. -/
def gapBetween (g g' : List Person) : Prop :=
  ∀ a b, g.getLast? = some a → g'.head? = some b → ¬ |b.score - a.score| ≤ 12

/-- A failed graph-image capture (`toPng` rejecting), the failure mode the
spec's enumeration omits. -/
def isImageFailure (e : Event) : Bool :=
  match e with
  | .saveImage ok => !ok
  | _ => false

/-! ## Helper lemmas about record (JS object) operations -/

theorem recordGet_recordSet_self {α : Type} (rec : List (String × α))
    (k : String) (v : α) : recordGet (recordSet rec k v) k = some v := by
  induction rec with
  | nil => simp [recordSet, recordGet]
  | cons e rest ih =>
    by_cases h : e.1 = k
    · simp [recordSet, recordGet, h]
    · simp [recordSet, recordGet, h, ih]

theorem recordGet_recordSet_ne {α : Type} (rec : List (String × α))
    {k k' : String} (v : α) (h : k' ≠ k) :
    recordGet (recordSet rec k v) k' = recordGet rec k' := by
  induction rec with
  | nil => simp [recordSet, recordGet, Ne.symm h]
  | cons e rest ih =>
    by_cases he : e.1 = k
    · subst he
      simp [recordSet, recordGet, Ne.symm h, fun hh : e.1 = k' => h hh.symm]
    · by_cases he' : e.1 = k'
      · simp [recordSet, recordGet, he, he', h]
      · simp [recordSet, recordGet, he, he', h, ih]

theorem keys_recordSet_of_mem {α : Type} {rec : List (String × α)}
    {k : String} (v : α) (h : k ∈ rec.map Prod.fst) :
    (recordSet rec k v).map Prod.fst = rec.map Prod.fst := by
  induction rec with
  | nil => simp at h
  | cons e rest ih =>
    by_cases he : e.1 = k
    · simp [recordSet, he]
    · have h' : k ∈ rest.map Prod.fst := by
        rcases List.mem_cons.1 h with h1 | h1
        · exact absurd h1.symm he
        · exact h1
      simp [recordSet, he, ih h']

theorem keys_recordSet_of_not_mem {α : Type} {rec : List (String × α)}
    {k : String} (v : α) (h : k ∉ rec.map Prod.fst) :
    (recordSet rec k v).map Prod.fst = rec.map Prod.fst ++ [k] := by
  induction rec with
  | nil => simp [recordSet]
  | cons e rest ih =>
    have he : e.1 ≠ k := fun hh => h (by simp [hh])
    have h' : k ∉ rest.map Prod.fst := fun hh => h (by simp [hh])
    simp [recordSet, he, ih h']

theorem nodupKeys_recordSet {α : Type} {rec : List (String × α)}
    {k : String} (v : α) (h : (rec.map Prod.fst).Nodup) :
    ((recordSet rec k v).map Prod.fst).Nodup := by
  by_cases hm : k ∈ rec.map Prod.fst
  · rw [keys_recordSet_of_mem v hm]; exact h
  · rw [keys_recordSet_of_not_mem v hm]
    simp [List.nodup_append, h, hm]

theorem mem_recordSet {α : Type} {rec : List (String × α)} {k : String}
    {v : α} {e : String × α} (h : e ∈ recordSet rec k v) :
    e ∈ rec ∨ e = (k, v) := by
  induction rec with
  | nil => simp [recordSet] at h; exact Or.inr h
  | cons f rest ih =>
    by_cases hf : f.1 = k
    · simp only [recordSet, hf, if_pos] at h
      rcases List.mem_cons.1 h with h1 | h1
      · exact Or.inr h1
      · exact Or.inl (List.mem_cons_of_mem f h1)
    · simp only [recordSet, hf, if_neg, not_false_iff] at h
      rcases List.mem_cons.1 h with h1 | h1
      · exact Or.inl (h1 ▸ List.mem_cons_self f rest)
      · rcases ih h1 with h2 | h2
        · exact Or.inl (List.mem_cons_of_mem f h2)
        · exact Or.inr h2

theorem mem_of_recordGet {α : Type} {rec : List (String × α)} {k : String}
    {v : α} (h : recordGet rec k = some v) : (k, v) ∈ rec := by
  induction rec with
  | nil => simp [recordGet] at h
  | cons e rest ih =>
    by_cases he : e.1 = k
    · simp only [recordGet, he, if_pos] at h
      obtain rfl : e.2 = v := Option.some.inj h
      exact List.mem_cons.2 (Or.inl (Prod.ext he.symm rfl))
    · simp only [recordGet, he, if_neg, not_false_iff] at h
      exact List.mem_cons_of_mem e (ih h)

/-! ## Helper lemmas about the `averageScores` accumulation -/

theorem foldl_pair_count (es : List (String × Int)) (t : Evals)
    (c : List (String × Nat)) :
    es.foldl (fun tc e => (bumpTotal tc.1 e, bumpCount tc.2 e.1)) (t, c) =
      (es.foldl bumpTotal t, es.foldl (fun c e => bumpCount c e.1) c) := by
  induction es generalizing t c with
  | nil => rfl
  | cons e rest ih => simpa using ih (bumpTotal t e) (bumpCount c e.1)

theorem foldl_pair_nocount (es : List (String × Int)) (t : Evals)
    (c : List (String × Nat)) :
    es.foldl (fun tc e => (bumpTotal tc.1 e, tc.2)) (t, c) =
      (es.foldl bumpTotal t, c) := by
  induction es generalizing t with
  | nil => rfl
  | cons e rest ih => simpa using ih (bumpTotal t e)

theorem totalsCounts_loop (m : Matrix) (t : Evals) (c : List (String × Nat)) :
    m.foldl
      (fun tc entry =>
        let evals := entry.2
        let hasEvaluatedRow := 0 < sumValues evals
        evals.foldl
          (fun tc e =>
            (bumpTotal tc.1 e,
             if hasEvaluatedRow then bumpCount tc.2 e.1 else tc.2))
          tc)
      (t, c) =
      ((m.flatMap Prod.snd).foldl bumpTotal t,
       ((m.filter (fun r => decide (0 < sumValues r.2))).flatMap
         Prod.snd).foldl (fun c e => bumpCount c e.1) c) := by
  induction m generalizing t c with
  | nil => rfl
  | cons r rest ih =>
    rw [List.foldl_cons]
    by_cases hc : 0 < sumValues r.2
    · have hrow :
          (r.2.foldl
            (fun tc e =>
              (bumpTotal tc.1 e,
               if 0 < sumValues r.2 then bumpCount tc.2 e.1 else tc.2))
            (t, c)) =
          (r.2.foldl bumpTotal t, r.2.foldl (fun c e => bumpCount c e.1) c) := by
        simp only [if_pos hc]
        exact foldl_pair_count r.2 t c
      simp only []
      rw [hrow, ih, List.flatMap_cons, List.foldl_append, List.filter_cons,
        if_pos (by simpa using hc), List.flatMap_cons, List.foldl_append]
    · have hrow :
          (r.2.foldl
            (fun tc e =>
              (bumpTotal tc.1 e,
               if 0 < sumValues r.2 then bumpCount tc.2 e.1 else tc.2))
            (t, c)) =
          (r.2.foldl bumpTotal t, c) := by
        simp only [if_neg hc]
        exact foldl_pair_nocount r.2 t c
      simp only []
      rw [hrow, ih, List.flatMap_cons, List.foldl_append, List.filter_cons,
        if_neg (by simpa using hc)]

theorem totalsCounts_eq (m : Matrix) :
    totalsCounts m =
      ((m.flatMap Prod.snd).foldl bumpTotal [],
       ((m.filter (fun r => decide (0 < sumValues r.2))).flatMap
         Prod.snd).foldl (fun c e => bumpCount c e.1) []) := by
  unfold totalsCounts
  exact totalsCounts_loop m [] []

theorem getD_bumpTotal (t : Evals) (e : String × Int) (name : String) :
    (recordGet (bumpTotal t e) name).getD 0 =
      (recordGet t name).getD 0 + (if e.1 = name then e.2 else 0) := by
  by_cases he : e.1 = name
  · subst he
    rw [bumpTotal, recordGet_recordSet_self]
    simp
  · rw [bumpTotal, recordGet_recordSet_ne _ _ (fun hh => he hh.symm)]
    simp [he]

theorem getD_foldl_bumpTotal (es : List (String × Int)) (t : Evals)
    (name : String) :
    (recordGet (es.foldl bumpTotal t) name).getD 0 =
      (recordGet t name).getD 0 +
        ((es.filter (fun e => decide (e.1 = name))).map Prod.snd).sum := by
  induction es generalizing t with
  | nil => simp
  | cons e rest ih =>
    rw [List.foldl_cons, ih, getD_bumpTotal]
    by_cases he : e.1 = name <;> simp [he, add_assoc]

theorem isSome_foldl_bumpTotal (es : List (String × Int)) (t : Evals)
    (name : String) :
    (recordGet (es.foldl bumpTotal t) name).isSome =
      ((recordGet t name).isSome ||
        es.any (fun e => decide (e.1 = name))) := by
  induction es generalizing t with
  | nil => simp
  | cons e rest ih =>
    rw [List.foldl_cons, ih]
    by_cases he : e.1 = name
    · subst he
      rw [bumpTotal, recordGet_recordSet_self]
      simp
    · rw [bumpTotal, recordGet_recordSet_ne _ _ (fun hh => he hh.symm)]
      simp [he]

theorem getD_bumpCount (c : List (String × Nat)) (k name : String) :
    (recordGet (bumpCount c k) name).getD 0 =
      (recordGet c name).getD 0 + (if k = name then 1 else 0) := by
  by_cases hk : k = name
  · subst hk
    rw [bumpCount, recordGet_recordSet_self]
    simp
  · rw [bumpCount, recordGet_recordSet_ne _ _ (fun hh => hk hh.symm)]
    simp [hk]

theorem getD_foldl_bumpCount (es : List (String × Int))
    (c : List (String × Nat)) (name : String) :
    (recordGet (es.foldl (fun c e => bumpCount c e.1) c) name).getD 0 =
      (recordGet c name).getD 0 +
        (es.filter (fun e => decide (e.1 = name))).length := by
  induction es generalizing c with
  | nil => simp
  | cons e rest ih =>
    rw [List.foldl_cons, ih, getD_bumpCount]
    by_cases he : e.1 = name
    · simp [he]
      omega
    · simp [he]

theorem isSome_foldl_bumpCount (es : List (String × Int))
    (c : List (String × Nat)) (name : String) :
    (recordGet (es.foldl (fun c e => bumpCount c e.1) c) name).isSome =
      ((recordGet c name).isSome ||
        es.any (fun e => decide (e.1 = name))) := by
  induction es generalizing c with
  | nil => simp
  | cons e rest ih =>
    rw [List.foldl_cons, ih]
    by_cases he : e.1 = name
    · subst he
      rw [bumpCount, recordGet_recordSet_self]
      simp
    · rw [bumpCount, recordGet_recordSet_ne _ _ (fun hh => he hh.symm)]
      simp [he]

theorem nodupKeys_foldl_bumpTotal (es : List (String × Int)) (t : Evals)
    (h : (t.map Prod.fst).Nodup) :
    (((es.foldl bumpTotal t).map Prod.fst)).Nodup := by
  induction es generalizing t with
  | nil => exact h
  | cons e rest ih => exact ih _ (nodupKeys_recordSet _ h)

theorem row_all_zero (row : Evals) (hn : ∀ e ∈ row, 0 ≤ e.2)
    (hs : ¬ 0 < sumValues row) : ∀ e ∈ row, e.2 = 0 := by
  intro e he
  have h1 : e.2 ≤ sumValues row := by
    refine List.single_le_sum ?_ _ (List.mem_map_of_mem Prod.snd he)
    intro x hx
    obtain ⟨y, hy, rfl⟩ := List.mem_map.1 hx
    exact hn y hy
  have h2 : 0 ≤ e.2 := hn e he
  omega

theorem sum_matching_counted (m : Matrix) (hn : nonnegMatrix m)
    (name : String) :
    (((m.flatMap Prod.snd).filter (fun e => decide (e.1 = name))).map
      Prod.snd).sum = (scoresFor m name).sum := by
  induction m with
  | nil => simp [scoresFor]
  | cons r rest ih =>
    have hnr : ∀ e ∈ r.2, 0 ≤ e.2 := hn r (List.mem_cons_self r rest)
    have hn' : nonnegMatrix rest := fun q hq => hn q (List.mem_cons_of_mem r hq)
    by_cases hc : 0 < sumValues r.2
    · simp only [scoresFor] at ih ⊢
      simp [List.flatMap_cons, List.filter_cons, hc, List.filter_append,
        List.map_append, List.sum_append, ih hn']
    · have hz2 :
          ((r.2.filter (fun e => decide (e.1 = name))).map Prod.snd).sum = 0 := by
        apply List.sum_eq_zero
        intro x hx
        obtain ⟨y, hy, rfl⟩ := List.mem_map.1 hx
        exact row_all_zero r.2 hnr hc y (List.mem_of_mem_filter hy)
      simp only [scoresFor] at ih ⊢
      simp [List.flatMap_cons, List.filter_cons, hc, List.filter_append,
        List.map_append, List.sum_append, hz2, ih hn']

/-! ## Helper lemmas about the label-layout grouping -/

theorem groupLoop_flatten (l : List Person) :
    ∀ (groups : List (List Person)) (cur : List Person),
      (groupLoop groups cur l).flatten = groups.flatten ++ (cur ++ l) := by
  induction l with
  | nil =>
    intro groups cur
    by_cases hc : cur = []
    · simp [groupLoop, hc]
    · simp [groupLoop, hc]
  | cons p rest ih =>
    intro groups cur
    cases hg : cur.getLast? with
    | none =>
      have hc : cur = [] := List.getLast?_eq_none_iff.1 hg
      simp [groupLoop, hg, ih, hc]
    | some last =>
      by_cases hb : |p.score - last.score| ≤ 12
      · simp [groupLoop, hg, hb, ih]
      · simp [groupLoop, hg, hb, ih]

theorem groupLoop_ne_nil (l : List Person) :
    ∀ (groups : List (List Person)) (cur : List Person),
      (∀ g ∈ groups, g ≠ []) → ∀ g ∈ groupLoop groups cur l, g ≠ [] := by
  induction l with
  | nil =>
    intro groups cur hg g hmem
    by_cases hc : cur.isEmpty
    · rw [groupLoop, if_pos hc] at hmem
      exact hg g hmem
    · rw [groupLoop, if_neg hc] at hmem
      rcases List.mem_append.1 hmem with h | h
      · exact hg g h
      · obtain rfl : g = cur := List.mem_singleton.1 h
        simpa [List.isEmpty_iff] using hc
  | cons p rest ih =>
    intro groups cur hg g hmem
    cases hgl : cur.getLast? with
    | none =>
      rw [groupLoop, hgl] at hmem
      exact ih groups [p] hg g hmem
    | some last =>
      have hcur : cur ≠ [] := by
        intro h
        rw [h] at hgl
        simp at hgl
      by_cases hb : |p.score - last.score| ≤ 12
      · rw [groupLoop, hgl] at hmem
        simp only [hb, if_true] at hmem
        exact ih groups (cur ++ [p]) hg g hmem
      · rw [groupLoop, hgl] at hmem
        simp only [hb, if_false] at hmem
        refine ih (groups ++ [cur]) [p] ?_ g hmem
        intro q hq
        rcases List.mem_append.1 hq with h | h
        · exact hg q h
        · obtain rfl : q = cur := List.mem_singleton.1 h
          exact hcur

theorem groupLoop_chain (l : List Person) :
    ∀ (groups : List (List Person)) (cur : List Person),
      (∀ g ∈ groups, g.Chain' withinBand) → cur.Chain' withinBand →
      ∀ g ∈ groupLoop groups cur l, g.Chain' withinBand := by
  induction l with
  | nil =>
    intro groups cur hg hcur g hmem
    by_cases hc : cur.isEmpty
    · rw [groupLoop, if_pos hc] at hmem
      exact hg g hmem
    · rw [groupLoop, if_neg hc] at hmem
      rcases List.mem_append.1 hmem with h | h
      · exact hg g h
      · obtain rfl : g = cur := List.mem_singleton.1 h
        exact hcur
  | cons p rest ih =>
    intro groups cur hg hcur g hmem
    cases hgl : cur.getLast? with
    | none =>
      rw [groupLoop, hgl] at hmem
      exact ih groups [p] hg (List.chain'_singleton p) g hmem
    | some last =>
      by_cases hb : |p.score - last.score| ≤ 12
      · rw [groupLoop, hgl] at hmem
        simp only [hb, if_true] at hmem
        refine ih groups (cur ++ [p]) hg ?_ g hmem
        refine hcur.append (List.chain'_singleton p) ?_
        intro x hx y hy
        obtain rfl : x = last := by
          rw [hgl] at hx
          exact (Option.mem_some_iff.1 hx).symm
        obtain rfl : y = p := (Option.mem_some_iff.1 hy).symm
        exact hb
      · rw [groupLoop, hgl] at hmem
        simp only [hb, if_false] at hmem
        refine ih (groups ++ [cur]) [p] ?_ (List.chain'_singleton p) g hmem
        intro q hq
        rcases List.mem_append.1 hq with h | h
        · exact hg q h
        · obtain rfl : q = cur := List.mem_singleton.1 h
          exact hcur

theorem groupLoop_gap (l : List Person) :
    ∀ (groups : List (List Person)) (cur : List Person),
      groups.Chain' gapBetween →
      (∀ g, groups.getLast? = some g → cur ≠ [] → gapBetween g cur) →
      (cur = [] → groups = []) →
      (groupLoop groups cur l).Chain' gapBetween := by
  induction l with
  | nil =>
    intro groups cur h1 h2 _
    by_cases hc : cur.isEmpty
    · rw [groupLoop, if_pos hc]
      exact h1
    · rw [groupLoop, if_neg hc]
      have hcur : cur ≠ [] := by simpa [List.isEmpty_iff] using hc
      refine h1.append (List.chain'_singleton cur) ?_
      intro x hx y hy
      obtain rfl : y = cur := (Option.mem_some_iff.1 hy).symm
      exact h2 x (Option.mem_def.1 hx) hcur
  | cons p rest ih =>
    intro groups cur h1 h2 h3
    cases hgl : cur.getLast? with
    | none =>
      have hc : cur = [] := List.getLast?_eq_none_iff.1 hgl
      obtain rfl : groups = [] := h3 hc
      rw [groupLoop, hgl]
      refine ih [] [p] List.chain'_nil ?_ ?_
      · intro g hgmem
        simp at hgmem
      · intro h
        rfl
    | some last =>
      have hcur : cur ≠ [] := by
        intro h
        rw [h] at hgl
        simp at hgl
      by_cases hb : |p.score - last.score| ≤ 12
      · rw [groupLoop, hgl]
        simp only [hb, if_true]
        refine ih groups (cur ++ [p]) h1 ?_ ?_
        · intro g hgmem _
          intro a b ha hbb
          rw [List.head?_append_of_ne_nil cur hcur] at hbb
          exact h2 g hgmem hcur a b ha hbb
        · intro h
          exact absurd h (by simp)
      · rw [groupLoop, hgl]
        simp only [hb, if_false]
        refine ih (groups ++ [cur]) [p] ?_ ?_ ?_
        · refine h1.append (List.chain'_singleton cur) ?_
          intro x hx y hy
          obtain rfl : y = cur := (Option.mem_some_iff.1 hy).symm
          exact h2 x (Option.mem_def.1 hx) hcur
        · intro g hgmem _
          rw [List.getLast?_concat] at hgmem
          obtain rfl : g = cur := (Option.some.inj hgmem).symm
          intro a b ha hbb
          obtain rfl : a = last := by
            rw [hgl] at ha
            exact (Option.some.inj ha).symm
          obtain rfl : b = p := by
            exact (by simpa using hbb : p = b).symm
          exact hb
        · intro h
          exact absurd h (by simp)

theorem itemsOfGroups_members (groups : List (List Person)) :
    (itemsOfGroups groups).map GItem.members = groups := by
  unfold itemsOfGroups
  rw [List.map_map]
  refine (List.map_congr_left ?_).trans (List.map_id groups)
  intro g hg
  by_cases hlen : g.length = 1
  · obtain ⟨a, rfl⟩ := List.length_eq_one.1 hlen
    simp [GItem.members]
  · simp [Function.comp, hlen, GItem.members]

theorem itemsOfGroups_spec (groups : List (List Person))
    (h : ∀ g ∈ groups, g ≠ []) :
    ∀ it ∈ itemsOfGroups groups,
      it.members ≠ [] ∧ it.centerX = clampX (meanScore it.members) ∧
      (it.isCluster = true → 2 ≤ it.members.length) ∧
      (it.isCluster = false → it.members.length = 1) := by
  intro it hit
  unfold itemsOfGroups at hit
  obtain ⟨g, hg, rfl⟩ := List.mem_map.1 hit
  have hgne := h g hg
  by_cases hlen : g.length = 1
  · obtain ⟨a, rfl⟩ := List.length_eq_one.1 hlen
    simp [GItem.members, GItem.centerX, GItem.isCluster]
  · have hpos : 0 < g.length := List.length_pos.2 hgne
    have h2 : 2 ≤ g.length := by omega
    simp [hlen, GItem.members, GItem.centerX, GItem.isCluster, h2, hgne]

theorem staggerOne_members (xs : List (ℚ × String)) (it : GItem) :
    (staggerOne xs it).members = it.members := by
  cases it with
  | single p x y =>
    rw [staggerOne]
    split
    · rfl
    · split <;> rfl
  | cluster x ms => rfl

theorem staggerOne_centerX (xs : List (ℚ × String)) (it : GItem) :
    (staggerOne xs it).centerX = it.centerX := by
  cases it with
  | single p x y =>
    rw [staggerOne]
    split
    · rfl
    · split <;> rfl
  | cluster x ms => rfl

theorem staggerOne_isCluster (xs : List (ℚ × String)) (it : GItem) :
    (staggerOne xs it).isCluster = it.isCluster := by
  cases it with
  | single p x y =>
    rw [staggerOne]
    split
    · rfl
    · split <;> rfl
  | cluster x ms => rfl

theorem staggerSingles_members (items : List GItem) :
    (staggerSingles items).map GItem.members = items.map GItem.members := by
  unfold staggerSingles
  rw [List.map_map]
  exact List.map_congr_left fun it _ => staggerOne_members _ it

theorem mem_staggerSingles (items : List GItem) {it : GItem}
    (hit : it ∈ staggerSingles items) :
    ∃ it0 ∈ items, it.members = it0.members ∧ it.centerX = it0.centerX ∧
      it.isCluster = it0.isCluster := by
  unfold staggerSingles at hit
  obtain ⟨it0, h0, rfl⟩ := List.mem_map.1 hit
  exact ⟨it0, h0, staggerOne_members _ it0, staggerOne_centerX _ it0,
    staggerOne_isCluster _ it0⟩

theorem personLE_trans : ∀ (a b c : Person),
    personLE a b → personLE b c → personLE a c := by
  intro a b c h1 h2
  simp only [personLE, Bool.or_eq_true, Bool.and_eq_true,
    decide_eq_true_eq] at h1 h2 ⊢
  rcases h1 with h1 | ⟨h1a, h1b⟩
  · rcases h2 with h2 | ⟨h2a, h2b⟩
    · exact Or.inl (by omega)
    · exact Or.inl (by omega)
  · rcases h2 with h2 | ⟨h2a, h2b⟩
    · exact Or.inl (by omega)
    · exact Or.inr ⟨by omega, le_trans h1b h2b⟩

theorem personLE_total : ∀ (a b : Person), personLE a b || personLE b a := by
  intro a b
  simp only [personLE, Bool.or_eq_true, Bool.and_eq_true, decide_eq_true_eq]
  rcases lt_trichotomy a.score b.score with h | h | h
  · exact Or.inl (Or.inl h)
  · rcases le_total a.name b.name with hn | hn
    · exact Or.inl (Or.inr ⟨h, hn⟩)
    · exact Or.inr (Or.inr ⟨h.symm, hn⟩)
  · exact Or.inr (Or.inl h)

/-! ## Claim theorems -/

/-- C9: the built-in initial evaluation matrix has one row per participant,
no participant appears as a subject of their own row, every other
participant does appear, all scores are 0 outside `지운`'s row, and
`지운`'s row is exactly the hard-coded preset list. -/
theorem C9_initial_matrix :
    getInitialData.map Prod.fst = participantsNames ∧
    (∀ row ∈ getInitialData,
      row.1 ∉ row.2.map Prod.fst ∧
      (∀ p ∈ participantsNames, p ≠ row.1 → p ∈ row.2.map Prod.fst) ∧
      (row.1 ≠ "지운" → ∀ e ∈ row.2, e.2 = 0)) ∧
    recordGet getInitialData "지운" = some jiunInitialScores := by
  decide

/-- C8: `updateScore(subject, score)` changes only the current evaluator's
entry for the given subject: every other evaluator's row reads back
unchanged, every other subject of the current evaluator's row reads back
unchanged, and the axis label (and selected evaluator) are unchanged. -/
theorem C8_updateScore_frame (s : AppState) (subj : String) (v : Int) :
    (∀ e, e ≠ s.currentScorer →
      recordGet (updateScore s subj v).allEvaluations e =
        recordGet s.allEvaluations e) ∧
    (∀ s2, s2 ≠ subj →
      recordGet ((recordGet (updateScore s subj v).allEvaluations
          s.currentScorer).getD []) s2 =
        recordGet ((recordGet s.allEvaluations s.currentScorer).getD []) s2) ∧
    (updateScore s subj v).axisLabel = s.axisLabel ∧
    (updateScore s subj v).currentScorer = s.currentScorer := by
  refine ⟨?_, ?_, rfl, rfl⟩
  · intro e he
    exact recordGet_recordSet_ne _ _ he
  · intro s2 hs2
    have hrow :
        recordGet (updateScore s subj v).allEvaluations s.currentScorer =
          some (recordSet ((recordGet s.allEvaluations s.currentScorer).getD [])
            subj v) :=
      recordGet_recordSet_self _ _ _
    rw [hrow, Option.getD_some]
    exact recordGet_recordSet_ne _ _ hs2

/-- C8 witness: the frame property evaluated on a concrete state. -/
theorem C8_updateScore_frame_witness :
    recordGet (updateScore ⟨[("a", [("b", 1)]), ("c", [])], "a", "L"⟩
        "b" 5).allEvaluations "c" =
      recordGet ([("a", [("b", 1)]), ("c", [])] : Matrix) "c" ∧
    recordGet ((recordGet (updateScore ⟨[("a", [("b", 1)]), ("c", [])], "a", "L"⟩
        "b" 5).allEvaluations "a").getD []) "z" =
      recordGet ((recordGet ([("a", [("b", 1)]), ("c", [])] : Matrix) "a").getD [])
        "z" := by
  obtain ⟨h1, h2, -, -⟩ :=
    C8_updateScore_frame ⟨[("a", [("b", 1)]), ("c", [])], "a", "L"⟩ "b" 5
  exact ⟨h1 "c" (by decide), h2 "z" (by decide)⟩

/-- C3: from any state, exporting and then importing the produced file
restores exactly the evaluation matrix and axis label at the moment of
export — whatever the overwrite-confirm answer, since declining leaves the
state untouched and it already equals the exported one. -/
theorem C3_export_import_roundtrip (s : AppState) (now : String) (c : Bool) :
    (importFromJson s (Except.ok (toImportFile (exportToJson s now))) c).1 =
      s := by
  cases s with
  | mk m cs l =>
    simp only [importFromJson, toImportFile, exportToJson]
    split
    · rfl
    · by_cases hl : l = "" <;> simp [hl]

/-- C7: at startup, a missing stored item, a stored item on which JSON
parsing throws, or a parsed payload lacking the expected fields all
initialize the app to the built-in default matrix and default axis label. -/
theorem C7_startup_defaults (r : LoadResult)
    (h : r = .absent ∨ (∃ msg, r = .malformed msg) ∨
      (∃ f, r = .parsed f ∧ f.allEvaluations = none ∧ f.axisLabel = none)) :
    initialEvaluations r = getInitialData ∧ initialAxisLabel r = "식 점수" := by
  rcases h with rfl | ⟨msg, rfl⟩ | ⟨f, rfl, h1, h2⟩
  · exact ⟨rfl, rfl⟩
  · exact ⟨rfl, rfl⟩
  · simp [initialEvaluations, initialAxisLabel, h1, h2]

/-- C7 witness: the defaults on an absent stored item. -/
theorem C7_startup_defaults_witness :
    initialEvaluations .absent = getInitialData ∧
      initialAxisLabel .absent = "식 점수" :=
  C7_startup_defaults .absent (Or.inl rfl)

/-- C1: the leaderboard entry for each subject that at least one evaluator
with a non-empty submission has scored is the arithmetic mean of the
scores given to that subject by evaluators whose own given total is
positive, rounded to the nearest integer (JS `Math.round`); evaluators
whose submissions are entirely zero contribute to neither the numerator
nor the denominator.  The key list of the leaderboard has no duplicates,
so this entry is the one displayed score for that subject. -/
theorem C1_leaderboard_mean (m : Matrix) (name : String)
    (hn : nonnegMatrix m) (hne : scoresFor m name ≠ []) :
    (name,
      jsRound (((scoresFor m name).sum : ℚ) /
        ((scoresFor m name).length : ℚ))) ∈ averageScores m ∧
    ((averageScores m).map Prod.fst).Nodup := by
  have hcounts2 : (totalsCounts m).2 =
      ((m.filter (fun r => decide (0 < sumValues r.2))).flatMap
        Prod.snd).foldl (fun c e => bumpCount c e.1) [] := by
    rw [totalsCounts_eq]
  have htotals1 : (totalsCounts m).1 =
      (m.flatMap Prod.snd).foldl bumpTotal [] := by
    rw [totalsCounts_eq]
  have hfilt : ((m.filter (fun r => decide (0 < sumValues r.2))).flatMap
      Prod.snd).filter (fun e => decide (e.1 = name)) ≠ [] := by
    intro h
    exact hne (by simp only [scoresFor, h, List.map_nil])
  obtain ⟨x, hx⟩ := List.exists_mem_of_ne_nil _ hfilt
  have hx1 : x ∈ (m.filter (fun r => decide (0 < sumValues r.2))).flatMap
      Prod.snd := List.mem_of_mem_filter hx
  have hx2 : x.1 = name := by
    have h := (List.mem_filter.1 hx).2
    simpa using h
  have hlenval : (recordGet (totalsCounts m).2 name).getD 0 =
      (scoresFor m name).length := by
    rw [hcounts2, getD_foldl_bumpCount]
    simp [scoresFor, recordGet]
  have hsome_counts : (recordGet (totalsCounts m).2 name).isSome = true := by
    rw [hcounts2, isSome_foldl_bumpCount]
    have hany : ((m.filter (fun r => decide (0 < sumValues r.2))).flatMap
        Prod.snd).any (fun e => decide (e.1 = name)) = true :=
      List.any_eq_true.2 ⟨x, hx1, by simpa using hx2⟩
    simp [recordGet, hany]
  obtain ⟨cv, hcv⟩ := Option.isSome_iff_exists.1 hsome_counts
  have hcvval : cv = (scoresFor m name).length := by
    have h := hlenval
    rw [hcv] at h
    simpa using h
  have hlenpos : (scoresFor m name).length ≠ 0 := by
    simpa [List.length_eq_zero] using hne
  have horOne : orOne (recordGet (totalsCounts m).2 name) =
      (scoresFor m name).length := by
    rw [hcv, hcvval]
    simp [orOne, hlenpos]
  have hsome_tot : (recordGet (totalsCounts m).1 name).isSome = true := by
    rw [htotals1, isSome_foldl_bumpTotal]
    obtain ⟨r, hr, hxr⟩ := List.mem_flatMap.1 hx1
    have hany : (m.flatMap Prod.snd).any (fun e => decide (e.1 = name)) = true :=
      List.any_eq_true.2
        ⟨x, List.mem_flatMap.2 ⟨r, List.mem_of_mem_filter hr, hxr⟩,
          by simpa using hx2⟩
    simp [recordGet, hany]
  obtain ⟨tv, htv⟩ := Option.isSome_iff_exists.1 hsome_tot
  have htvval : tv = (scoresFor m name).sum := by
    have h1 : (recordGet (totalsCounts m).1 name).getD 0 =
        (scoresFor m name).sum := by
      rw [htotals1, getD_foldl_bumpTotal]
      simpa [recordGet] using sum_matching_counted m hn name
    rw [htv] at h1
    simpa using h1
  have hmem_tot : (name, tv) ∈ (totalsCounts m).1 := mem_of_recordGet htv
  constructor
  · unfold averageScores
    rw [List.mem_mergeSort]
    refine List.mem_map.2 ⟨(name, tv), hmem_tot, ?_⟩
    rw [htvval, horOne]
  · have hkeys : (((totalsCounts m).1).map Prod.fst).Nodup := by
      rw [htotals1]
      exact nodupKeys_foldl_bumpTotal _ [] (by simp)
    unfold averageScores
    exact ((List.mergeSort_perm _ _).map Prod.fst).nodup_iff.mpr
      (by simpa [List.map_map, Function.comp] using hkeys)

/-- C1 witness: the mean property on a concrete two-evaluator matrix. -/
theorem C1_leaderboard_mean_witness :
    ("b", jsRound (((scoresFor [("a", [("b", 10)]), ("b", [("a", 0)])]
          "b").sum : ℚ) /
        ((scoresFor [("a", [("b", 10)]), ("b", [("a", 0)])] "b").length : ℚ)))
      ∈ averageScores [("a", [("b", 10)]), ("b", [("a", 0)])] ∧
    ((averageScores [("a", [("b", 10)]), ("b", [("a", 0)])]).map
      Prod.fst).Nodup :=
  C1_leaderboard_mean [("a", [("b", 10)]), ("b", [("a", 0)])] "b"
    (by unfold nonnegMatrix; decide) (by decide)

/-- C10: the leaderboard denominator is always at least 1 (never a
division by zero); for a subject whom no evaluator with a non-empty
submission has scored, the displayed score equals the raw total; and when
every submission is empty (all-zero, with non-negative scores) that raw
total is 0. -/
theorem C10_average_denominator (m : Matrix) (name : String) :
    1 ≤ orOne (recordGet (totalsCounts m).2 name) ∧
    (∀ t, recordGet (totalsCounts m).1 name = some t →
      scoresFor m name = [] →
      jsRound ((t : ℚ) /
        (orOne (recordGet (totalsCounts m).2 name) : ℚ)) = t ∧
      (name, t) ∈ averageScores m) ∧
    (nonnegMatrix m → (∀ r ∈ m, ¬ 0 < sumValues r.2) →
      (recordGet (totalsCounts m).1 name).getD 0 = 0) := by
  have hcounts2 : (totalsCounts m).2 =
      ((m.filter (fun r => decide (0 < sumValues r.2))).flatMap
        Prod.snd).foldl (fun c e => bumpCount c e.1) [] := by
    rw [totalsCounts_eq]
  have htotals1 : (totalsCounts m).1 =
      (m.flatMap Prod.snd).foldl bumpTotal [] := by
    rw [totalsCounts_eq]
  have h1 : ∀ o : Option Nat, 1 ≤ orOne o := by
    intro o
    cases o with
    | none => simp [orOne]
    | some n =>
      by_cases hn : n = 0
      · simp [orOne, hn]
      · simp only [orOne, if_neg hn]
        omega
  refine ⟨h1 _, ?_, ?_⟩
  · intro t ht hempty
    have hfilt : ((m.filter (fun r => decide (0 < sumValues r.2))).flatMap
        Prod.snd).filter (fun e => decide (e.1 = name)) = [] := by
      have h := hempty
      simp only [scoresFor] at h
      exact List.map_eq_nil_iff.1 h
    have hget0 : (recordGet (totalsCounts m).2 name).getD 0 = 0 := by
      rw [hcounts2, getD_foldl_bumpCount, hfilt]
      simp [recordGet]
    have horone1 : orOne (recordGet (totalsCounts m).2 name) = 1 := by
      rcases hh : recordGet (totalsCounts m).2 name with _ | n
      · simp [orOne]
      · rw [hh] at hget0
        simp only [Option.getD_some] at hget0
        simp [orOne, hget0]
    have hval : jsRound ((t : ℚ) /
        (orOne (recordGet (totalsCounts m).2 name) : ℚ)) = t := by
      rw [horone1]
      unfold jsRound
      norm_num [Int.floor_int_add]
    refine ⟨hval, ?_⟩
    unfold averageScores
    rw [List.mem_mergeSort]
    refine List.mem_map.2 ⟨(name, t), mem_of_recordGet ht, ?_⟩
    simp only []
    rw [hval]
  · intro hn hall
    rw [htotals1, getD_foldl_bumpTotal]
    have hfilter_nil : m.filter (fun r => decide (0 < sumValues r.2)) = [] :=
      List.filter_eq_nil_iff.2 (by
        intro r hr
        simpa using hall r hr)
    have := sum_matching_counted m hn name
    simp [scoresFor, hfilter_nil] at this
    simp [recordGet, this]

/-- C10 witness: the fallback denominator on a concrete matrix whose only
evaluator has an all-zero submission. -/
theorem C10_average_denominator_witness :
    1 ≤ orOne (recordGet (totalsCounts [("a", [("b", 0)])]).2 "b") ∧
    jsRound (((0 : Int) : ℚ) /
      (orOne (recordGet (totalsCounts [("a", [("b", 0)])]).2 "b") : ℚ)) = 0 ∧
    ("b", 0) ∈ averageScores [("a", [("b", 0)])] ∧
    (recordGet (totalsCounts [("a", [("b", 0)])]).1 "b").getD 0 = 0 := by
  obtain ⟨h1, h2, h3⟩ := C10_average_denominator [("a", [("b", 0)])] "b"
  obtain ⟨h2a, h2b⟩ := h2 0 (by decide) (by decide)
  exact ⟨h1, h2a, h2b, h3 (by unfold nonnegMatrix; decide) (by decide)⟩

/-- C6: the label layout sorts the current evaluator's scored subjects
ascending by score with ties broken by name, partitions that sorted list
into maximal consecutive runs in which each member is within 12 points of
the previous one (neighbouring runs are separated by a gap of more than
12), renders every run at the clamped-into-`[3,97]` mean of its members'
scores — multi-member runs as clusters, one-member runs as singles —
assigns every subject to exactly one rendered item (the items' member
lists concatenate to a permutation of the input), and returns the items
in ascending order of horizontal position. -/
theorem C6_graph_layout (ps : List Person) :
    (((graphDisplayItems ps).map GItem.members).flatten).Perm ps ∧
    (graphDisplayItems ps).Pairwise (fun a b => a.centerX ≤ b.centerX) ∧
    (∀ it ∈ graphDisplayItems ps,
      it.members ≠ [] ∧ it.centerX = clampX (meanScore it.members) ∧
      (it.isCluster = true → 2 ≤ it.members.length) ∧
      (it.isCluster = false → it.members.length = 1)) ∧
    (graphGroups ps).flatten = ps.mergeSort personLE ∧
    (ps.mergeSort personLE).Pairwise (fun a b => personLE a b = true) ∧
    (∀ g ∈ graphGroups ps, g ≠ [] ∧ g.Chain' withinBand) ∧
    (graphGroups ps).Chain' gapBetween := by
  have hne : ∀ g ∈ graphGroups ps, g ≠ [] := by
    refine groupLoop_ne_nil _ [] [] ?_
    intro g hg
    simp at hg
  have hflat : (graphGroups ps).flatten = ps.mergeSort personLE := by
    unfold graphGroups
    rw [groupLoop_flatten]
    simp
  have hitems_members :
      (staggerSingles (itemsOfGroups (graphGroups ps))).map GItem.members =
        graphGroups ps := by
    rw [staggerSingles_members, itemsOfGroups_members]
  have hsorted_perm : (ps.mergeSort personLE).Perm ps :=
    List.mergeSort_perm ps personLE
  refine ⟨?_, ?_, ?_, hflat, ?_, ?_, ?_⟩
  · have h1 : (graphDisplayItems ps).Perm
        (staggerSingles (itemsOfGroups (graphGroups ps))) := by
      unfold graphDisplayItems graphGroups
      exact List.mergeSort_perm _ _
    have h3 : (((graphDisplayItems ps).map GItem.members).flatten).Perm
        ((graphGroups ps).flatten) := by
      have h2 := (h1.map GItem.members).flatten
      rw [hitems_members] at h2
      exact h2
    rw [hflat] at h3
    exact h3.trans hsorted_perm
  · have hpair := @List.sorted_mergeSort GItem
      (fun a b => decide (a.centerX ≤ b.centerX))
      (fun a b c h1 h2 => decide_eq_true
        (le_trans (of_decide_eq_true h1) (of_decide_eq_true h2)))
      (fun a b => by
        rcases le_total a.centerX b.centerX with h | h
        · simp [h]
        · simp [h])
      (staggerSingles (itemsOfGroups (groupLoop [] [] (ps.mergeSort personLE))))
    unfold graphDisplayItems
    exact hpair.imp fun h => of_decide_eq_true h
  · intro it hit
    unfold graphDisplayItems at hit
    rw [List.mem_mergeSort] at hit
    obtain ⟨it0, h0, hm, hx, hc⟩ := mem_staggerSingles _ hit
    have hspec := itemsOfGroups_spec _ hne it0 h0
    rw [hm, hx, hc]
    exact hspec
  · have := @List.sorted_mergeSort Person personLE personLE_trans
      personLE_total ps
    simpa using this
  · intro g hg
    refine ⟨hne g hg, ?_⟩
    refine groupLoop_chain _ [] [] ?_ List.chain'_nil g hg
    intro q hq
    simp at hq
  · refine groupLoop_gap _ [] [] List.chain'_nil ?_ fun _ => rfl
    intro g hgl
    simp at hgl

/-- C6 witness: the layout properties instantiated on a concrete
one-subject list and its unique rendered item. -/
theorem C6_graph_layout_witness :
    (GItem.single ⟨"p", 50⟩ (clampX (meanScore [⟨"p", 50⟩])) none).members
        ≠ [] ∧
    (GItem.single ⟨"p", 50⟩ (clampX (meanScore [⟨"p", 50⟩])) none).centerX =
      clampX (meanScore (GItem.single ⟨"p", 50⟩
        (clampX (meanScore [⟨"p", 50⟩])) none).members) ∧
    ([⟨"p", 50⟩] : List Person).Chain' withinBand := by
  have hstag : staggerSingles [GItem.single ⟨"p", 50⟩
      (clampX (meanScore [⟨"p", 50⟩])) none] =
      [GItem.single ⟨"p", 50⟩ (clampX (meanScore [⟨"p", 50⟩])) none] := by
    unfold staggerSingles staggerOne
    simp [List.filterMap_cons, sub_self, abs_zero]
  have hitems : graphDisplayItems [⟨"p", 50⟩] =
      [GItem.single ⟨"p", 50⟩ (clampX (meanScore [⟨"p", 50⟩])) none] := by
    unfold graphDisplayItems
    rw [List.mergeSort_singleton]
    rw [show itemsOfGroups (groupLoop [] [] [(⟨"p", 50⟩ : Person)]) =
        [GItem.single ⟨"p", 50⟩ (clampX (meanScore [⟨"p", 50⟩])) none]
      from rfl]
    rw [hstag, List.mergeSort_singleton]
  have hgroups : graphGroups [⟨"p", 50⟩] = [[⟨"p", 50⟩]] := by
    unfold graphGroups
    rw [List.mergeSort_singleton]
    rfl
  obtain ⟨-, -, h3, -, -, h6, -⟩ := C6_graph_layout [⟨"p", 50⟩]
  obtain ⟨ha, hb, -, -⟩ :=
    h3 (GItem.single ⟨"p", 50⟩ (clampX (meanScore [⟨"p", 50⟩])) none)
      (by rw [hitems]; exact List.mem_singleton.2 rfl)
  exact ⟨ha, hb,
    (h6 [⟨"p", 50⟩] (by rw [hgroups]; exact List.mem_singleton.2 rfl)).2⟩

/-- C5 counterexample: importing a file whose `allEvaluations` object has
the single key `"bob"` replaces the evaluator set, so after this
operation the evaluator keys are not the seventeen built-in names. -/
theorem C5_keys_counterexample :
    ((importFromJson ⟨getInitialData, "지운", "식 점수"⟩
        (Except.ok ⟨some [("bob", [])], none⟩) true).1.allEvaluations.map
      Prod.fst) ≠ participantsNames := by
  decide

/-- C5 amended: the built-in initial matrix has exactly the seventeen
participant names as evaluator keys, and `updateScore` preserves the
evaluator key set whenever the current scorer is already a key (true in
every state the UI itself builds); but a JSON import replaces the matrix
wholesale and can change the evaluator set. -/
theorem C5_keys_amended :
    getInitialData.map Prod.fst = participantsNames ∧
    ∀ (s : AppState) (subj : String) (v : Int),
      s.currentScorer ∈ s.allEvaluations.map Prod.fst →
      (updateScore s subj v).allEvaluations.map Prod.fst =
        s.allEvaluations.map Prod.fst := by
  refine ⟨by decide, ?_⟩
  intro s subj v h
  exact keys_recordSet_of_mem _ h

/-- C5 witness: the key-set preservation on a concrete state. -/
theorem C5_keys_amended_witness :
    (updateScore ⟨[("a", [("b", 1)])], "a", "L"⟩ "b" 7).allEvaluations.map
        Prod.fst =
      ([("a", [("b", 1)])] : Matrix).map Prod.fst :=
  C5_keys_amended.2 ⟨[("a", [("b", 1)])], "a", "L"⟩ "b" 7 (by decide)

/-- C2 counterexample: importing a file carrying the score 999 produces a
persisted snapshot with a score outside `[0, 100]`, so the range
invariant does not hold for states produced by JSON import. -/
theorem C2_range_counterexample :
    snapshotInRange (persistSnapshot
      (importFromJson ⟨getInitialData, "지운", "식 점수"⟩
        (Except.ok ⟨some [("지운", [("대성", 999)])], none⟩) true).1) = false := by
  decide

/-- C2 amended: the score-range invariant `[0, 100]` is preserved by the
clamped numeric input, by the blur reset, and by the slider (whose range
control yields values in `[0, 100]`), and the persisted snapshot mirrors
the state verbatim; but JSON import stores the imported scores
unvalidated, so an imported file can persist out-of-range scores. -/
theorem C2_range_amended (s : AppState) (subj : String) (pv : Option Int)
    (v : Int) (h : matrixInRange s.allEvaluations) :
    matrixInRange (numberInput s subj pv).allEvaluations ∧
    matrixInRange (numberBlur s subj pv).allEvaluations ∧
    (0 ≤ v → v ≤ 100 → matrixInRange (sliderInput s subj v).allEvaluations) ∧
    persistSnapshot s = ⟨s.allEvaluations, s.axisLabel⟩ := by
  have key : ∀ (w : Int), 0 ≤ w → w ≤ 100 →
      matrixInRange (updateScore s subj w).allEvaluations := by
    intro w h0 h100 r hr e he
    rcases mem_recordSet hr with hr' | rfl
    · exact h r hr' e he
    · rcases mem_recordSet he with he' | rfl
      · cases hrow : recordGet s.allEvaluations s.currentScorer with
        | none => rw [hrow] at he'; simp at he'
        | some row =>
          exact h _ (mem_of_recordGet hrow) e (by rw [hrow] at he'; simpa using he')
      · exact ⟨h0, h100⟩
  refine ⟨?_, ?_, fun h0 h100 => key v h0 h100, rfl⟩
  · cases pv with
    | none => exact h
    | some w =>
      refine key _ ?_ ?_
      · simp only [le_min_iff]
        exact ⟨by norm_num, le_max_left 0 w⟩
      · exact min_le_left 100 _
  · cases pv with
    | none => exact key 0 le_rfl (by norm_num)
    | some _ => exact h

/-- C2 witness: range preservation evaluated on a concrete state. -/
theorem C2_range_amended_witness :
    matrixInRange (numberInput ⟨[("a", [("b", 1)])], "a", "L"⟩ "b"
        (some 250)).allEvaluations ∧
    matrixInRange (sliderInput ⟨[("a", [("b", 1)])], "a", "L"⟩ "b"
        40).allEvaluations := by
  obtain ⟨h1, -, h3, -⟩ :=
    C2_range_amended ⟨[("a", [("b", 1)])], "a", "L"⟩ "b" (some 250) 40
      (by unfold matrixInRange; decide)
  exact ⟨h1, h3 (by decide) (by decide)⟩

/-- C4 counterexample: the claim that every error notification stems from
a failed import or a failed storage write is false — a failed graph-image
capture also produces an error toast. -/
theorem C4_failures_counterexample :
    ¬ (∀ (s : AppState) (e : Event) (t : Toast),
        (step s e).2 = some t → t.ttype = ToastType.error →
        isSpecFailure e = true) := by
  intro h
  have := h ⟨getInitialData, "지운", "식 점수"⟩ (.saveImage false)
    ⟨"이미지 저장에 실패했습니다.", .error⟩ rfl rfl
  simp [isSpecFailure] at this

/-- C4 amended: every error notification stems from a failed import, a
failed storage write, or a failed graph-image capture, and in each case
the in-memory evaluation matrix, axis label and whole state are unchanged
(the invalid input is discarded, with no retry). -/
theorem C4_failures_amended (s : AppState) (e : Event) (t : Toast)
    (h : (step s e).2 = some t) (herr : t.ttype = ToastType.error) :
    (isSpecFailure e || isImageFailure e) = true ∧ (step s e).1 = s := by
  cases e with
  | selectScorer name => simp [step] at h
  | setSlider subject v => simp [step] at h
  | setNumber subject parsed => simp [step] at h
  | blurNumber subject parsed => simp [step] at h
  | editLabel l => simp [step] at h
  | exportJson now =>
    simp only [step] at h
    obtain rfl : t = ⟨"JSON 파일이 다운로드되었습니다.", .success⟩ :=
      (Option.some.inj h).symm
    simp at herr
  | importJson parsed confirmed =>
    cases parsed with
    | error msg =>
      refine ⟨by simp [isSpecFailure, importFails], ?_⟩
      simp [step, importFromJson]
    | ok f =>
      cases hf : f.allEvaluations with
      | none =>
        refine ⟨by simp [isSpecFailure, importFails, hf], ?_⟩
        simp [step, importFromJson, hf]
      | some m =>
        simp only [step, importFromJson, hf] at h
        split at h
        · simp at h
        · obtain rfl : t = ⟨"파일을 성공적으로 불러왔습니다.", .success⟩ :=
            (Option.some.inj h).symm
          simp at herr
  | persist ok =>
    cases ok with
    | true => simp [step] at h
    | false => exact ⟨rfl, rfl⟩
  | saveImage ok =>
    cases ok with
    | true =>
      simp only [step] at h
      obtain rfl : t = ⟨"이미지가 저장되었습니다.", .success⟩ :=
        (Option.some.inj h).symm
      simp at herr
    | false => exact ⟨rfl, rfl⟩

/-- C4 witness: the amended failure enumeration on a concrete failed
storage write. -/
theorem C4_failures_amended_witness :
    (isSpecFailure (.persist false) || isImageFailure (.persist false))
        = true ∧
      (step ⟨[], "a", "L"⟩ (Event.persist false)).1 = ⟨[], "a", "L"⟩ :=
  C4_failures_amended ⟨[], "a", "L"⟩ (.persist false)
    ⟨"저장 공간이 부족합니다.", .error⟩ rfl rfl

end ScoreApp
